import Mathlib

/-!
# Verification of the n2t VM translator core

Shallow embedding of the VM-to-Hack-assembly translator
(`src/parser.rs`, `src/codegen.rs`) and proofs about it.

Conventions of the embedding:
* Rust `u8` counters (`CodeGen.jmps`, `CodeGen.vs`) are `Nat` with every
  increment taken `% 256`, matching the wrap-around of `u8` addition (release-mode semantics; debug builds abort at the
  256th increment instead of wrapping).
* Rust `u16` indices are `Nat`; the parser enforces the `≤ 65535` bound,
  and the code generator only formats or compares indices, so no further
  wrapping arises.
* `HashMap<u16, String>` is an association list inspected through
  `List.lookup`; the source only ever inserts a key that is absent, so
  first-match lookup coincides with hash-map lookup.
* Fallible Rust functions returning `anyhow::Result` become `Except String`.
  Places where the source calls `Option::unwrap` (and would abort the
  process on `None`) are modelled by the distinguished outcome
  `PRes.panicked`, kept separate from an ordinary parse error.
-/

set_option maxRecDepth 40000

deriving instance DecidableEq for Except

namespace N2T

/-- One outcome of a fallible parse step: a value, a recoverable error
(Rust `Err`), or a process abort (Rust `panic` via `Option::unwrap`). -/
inductive PRes (α : Type) where
  | ok (a : α)
  | err (e : String)
  | panicked
deriving DecidableEq

/-- Models Rust `str::split_whitespace` on a character list: maximal runs
of non-whitespace characters, in order, empty runs dropped.  `acc` holds
the (reversed) characters of the token currently being read. -/
def splitWsAux : List Char → List Char → List String
  | acc, [] => if acc.isEmpty then [] else [String.mk acc.reverse]
  | acc, c :: cs =>
    if c.isWhitespace then
      if acc.isEmpty then splitWsAux [] cs
      else String.mk acc.reverse :: splitWsAux [] cs
    else splitWsAux (c :: acc) cs

/-- Models Rust `str::split_whitespace` (collected to a `Vec`). -/
def splitWs (s : String) : List String :=
  splitWsAux [] s.data

/-- Models Rust `str::trim`: strip leading and trailing whitespace. -/
def trimStr (s : String) : String :=
  String.mk (((s.data.dropWhile Char.isWhitespace).reverse.dropWhile
    Char.isWhitespace).reverse)

/-- Decimal value of a digit list (most significant first). -/
def digitsToNat (cs : List Char) : Nat :=
  cs.foldl (fun a c => a * 10 + (c.toNat - 48)) 0

/-- Sign handling: the optional leading `+` accepted by the Rust unsigned integer parse. -/
def stripSign (l : List Char) : List Char :=
  match l with
  | '+' :: r => r
  | _ => l

/-- Models Rust `str::parse::<u16>()`: optional leading `+`, then at least
one decimal digit, value at most `65535`.  Error messages follow
the display strings of `ParseIntError`.  (The source checks overflow while
accumulating; for an input that both overflows and contains a stray
non-digit the real message would be the overflow one — both are errors,
and no claim depends on that corner's message text.) -/
def parseU16 (s : String) : Except String Nat :=
  if s.data.isEmpty then .error "cannot parse integer from empty string"
  else
    let ds := stripSign s.data
    if ds.isEmpty then .error "invalid digit found in string"
    else if ds.all Char.isDigit then
      let v := digitsToNat ds
      if v ≤ 65535 then .ok v
      else .error "number too large to fit in target type"
    else .error "invalid digit found in string"

/-- Embedding of `parser.rs` `Segment`. -/
inductive Segment where
  | constant
  | local_
  | argument
  | this
  | that
  | temp
  | pointer
  | static_
deriving DecidableEq

/-- Embedding of `parser.rs` `Segment::new`. -/
def Segment.new (raw : String) : Except String Segment :=
  match raw with
  | "constant" => .ok .constant
  | "local" => .ok .local_
  | "argument" => .ok .argument
  | "this" => .ok .this
  | "that" => .ok .that
  | "temp" => .ok .temp
  | "pointer" => .ok .pointer
  | "static" => .ok .static_
  | _ => .error ("unexpected dest: " ++ raw)

/-- Embedding of `parser.rs` `Segment::to_address`. -/
def Segment.to_address : Segment → Except String String
  | .local_ => .ok "LCL"
  | .argument => .ok "ARG"
  | .this => .ok "THIS"
  | .that => .ok "THAT"
  | .temp => .ok "5"
  | .pointer => .ok "3"
  | .static_ => .error "static address is contextual and only available in codegen"
  | .constant => .error "constant does not have an address"

/-- Embedding of `parser.rs` `BinaryToken`. -/
inductive BinaryToken where
  | Add | Sub | And | Or
deriving DecidableEq

/-- Embedding of `parser.rs` `UnaryToken`. -/
inductive UnaryToken where
  | Neg | Not
deriving DecidableEq

/-- Embedding of `parser.rs` `ComparisonToken`. -/
inductive ComparisonToken where
  | Equal | LessThan | GreaterThan
deriving DecidableEq

/-- Embedding of `parser.rs` `StackToken`; the `u16` index is a `Nat` (the parser
bounds it by `65535`). -/
inductive StackToken where
  | Push (segment : Segment) (index : Nat)
  | Pop (segment : Segment) (index : Nat)
deriving DecidableEq

/-- Embedding of `parser.rs` `Line`. -/
inductive Line where
  | Stack (t : StackToken)
  | Binary (t : BinaryToken)
  | Unary (t : UnaryToken)
  | Comparison (t : ComparisonToken)
deriving DecidableEq

/-- Embedding of `parser.rs` `StackToken::new`, factored over the token list produced by
`split_whitespace` (the source collects exactly this list and then reads
positions 0/1/2 with `unwrap`; a missing position is a panic, not an `Err`).
Evaluation order matches the source: token 0, token 1, `Segment::new` (whose
`Err` propagates via `?`), token 2, `parse` (ditto), then the command match. -/
def stackFromTokens (tokens : List String) : PRes StackToken :=
  match tokens.get? 0 with
  | none => .panicked
  | some t0 =>
    let cmd := trimStr t0
    match tokens.get? 1 with
    | none => .panicked
    | some t1 =>
      match Segment.new (trimStr t1) with
      | .error e => .err e
      | .ok segment =>
        match tokens.get? 2 with
        | none => .panicked
        | some t2 =>
          match parseU16 t2 with
          | .error e => .err e
          | .ok index =>
            match cmd with
            | "push" => .ok (.Push segment index)
            | "pop" => .ok (.Pop segment index)
            | _ => .err ("unsupported stack cmd: " ++ cmd)

/-- Embedding of `parser.rs` `StackToken::new`. -/
def StackToken.new (raw : String) : PRes StackToken :=
  stackFromTokens (splitWs raw)

/-- Embedding of `parser.rs` `Line::new`. -/
def Line.new (raw : String) : PRes Line :=
  match (splitWs raw).head? with
  | some t =>
    match trimStr t with
    | "push" | "pop" =>
      (match StackToken.new raw with
       | .ok st => .ok (.Stack st)
       | .err e => .err e
       | .panicked => .panicked)
    | "neg" => .ok (.Unary .Neg)
    | "not" => .ok (.Unary .Not)
    | "add" => .ok (.Binary .Add)
    | "sub" => .ok (.Binary .Sub)
    | "and" => .ok (.Binary .And)
    | "or" => .ok (.Binary .Or)
    | "eq" => .ok (.Comparison .Equal)
    | "lt" => .ok (.Comparison .LessThan)
    | "gt" => .ok (.Comparison .GreaterThan)
    | _ => .err ("unexpected token: " ++ t)
  | none => .err "token cannot be null"

/-- Label text produced by `CodeGen::get_jmp_token`: JMP_ followed by the decimal id. -/
def jmpLabel (n : Nat) : String := "JMP_" ++ Nat.repr n

/-- Slot text produced by `CodeGen::get_variable`: V_ followed by the decimal id. -/
def vLabel (n : Nat) : String := "V_" ++ Nat.repr n

/-- Embedding of `codegen.rs` `CodeGen`.  Here `jmps` and `vs` are `u8` in the source: every
increment below is taken `% 256` (u8 wrap-around; debug builds would abort
on the overflowing increment instead).  The `HashMap<u16, String>` is an
association list; the source inserts only absent keys. -/
structure CodeGen where
  jmps : Nat
  vs : Nat
  statics : List (Nat × String)
deriving DecidableEq

/-- Embedding of `codegen.rs` `CodeGen::new`.  (The caller in `parser.rs` passes a
filename argument that this constructor does not declare; the constructor
itself, the authority here, takes nothing and stores none.) -/
def CodeGen.new : CodeGen := { jmps := 0, vs := 0, statics := [] }

/-- Embedding of `codegen.rs` `CodeGen::get_jmp_token`. -/
def CodeGen.get_jmp_token (cg : CodeGen) : String × CodeGen :=
  (jmpLabel cg.jmps, { cg with jmps := (cg.jmps + 1) % 256 })

/-- Embedding of `codegen.rs` `CodeGen::get_variable`. -/
def CodeGen.get_variable (cg : CodeGen) : String × CodeGen :=
  (vLabel cg.vs, { cg with vs := (cg.vs + 1) % 256 })

/-- Embedding of `codegen.rs` `CodeGen::get_static_variable`. -/
def CodeGen.get_static_variable (cg : CodeGen) (index : Nat) : String × CodeGen :=
  match cg.statics.lookup index with
  | some v => (v, cg)
  | none =>
    let (v, cg') := cg.get_variable
    (v, { cg' with statics := (index, v) :: cg'.statics })

/-- Embedding of `codegen.rs` `CodeGen::get_address`. -/
def CodeGen.get_address (cg : CodeGen) (segment : Segment) (index : Nat) :
    Except String String × CodeGen :=
  match segment with
  | .static_ =>
    let (v, cg') := cg.get_static_variable index
    (.ok v, cg')
  | _ => (segment.to_address, cg)

/-- Embedding of `codegen.rs` `CodeGen::gen_stack_block`.  The emitted
strings are verbatim what the source formats: an at-sign followed by the
index, the resolved address, or the scratch slot. -/
def CodeGen.gen_stack_block (cg : CodeGen) (token : StackToken) :
    Except String (List String) × CodeGen :=
  match token with
  | .Push segment index =>
    match segment with
    | .constant =>
      (.ok (["@" ++ Nat.repr index, "D=A"]
        ++ ["@SP", "A=M", "M=D", "@SP", "M=M+1"]), cg)
    | _ =>
      let (addr, cg') := cg.get_address segment index
      match addr with
      | .error e => (.error e, cg')
      | .ok address =>
        (.ok (["@" ++ Nat.repr index, "D=A", "@" ++ address]
          ++ (match segment with
              | .temp | .pointer => ["A=D+A"]
              | _ => ["A=D+M"])
          ++ ["D=M"]
          ++ ["@SP", "A=M", "M=D", "@SP", "M=M+1"]), cg')
  | .Pop segment index =>
    match segment with
    | .constant => (.error "cannot pop constant", cg)
    | _ =>
      let (dest, cg1) := cg.get_variable
      let (addr, cg2) := cg1.get_address segment index
      match addr with
      | .error e => (.error e, cg2)
      | .ok address =>
        (.ok (["@" ++ Nat.repr index, "D=A", "@" ++ address]
          ++ (match segment with
              | .temp | .pointer => []
              | _ => ["A=M"])
          ++ ["D=D+A", "@" ++ dest, "M=D"]
          ++ ["@SP", "M=M-1", "A=M", "D=M"]
          ++ ["@" ++ dest, "A=M", "M=D"]), cg2)

/-- Embedding of `codegen.rs` `CodeGen::gen_unary_block` (no state is
touched; the `Result` in the source is always `Ok`). -/
def CodeGen.gen_unary_block (token : UnaryToken) : Except String (List String) :=
  .ok ((match token with
        | .Neg => ["@0", "D=A"]
        | .Not => [])
    ++ ["@SP", "A=M-1",
        match token with
        | .Neg => "M=D-M"
        | .Not => "M=!M"])

/-- Embedding of `codegen.rs` `CodeGen::gen_binary_block`. -/
def CodeGen.gen_binary_block (token : BinaryToken) : Except String (List String) :=
  .ok ["@SP", "M=M-1", "A=M", "D=M", "A=A-1",
    match token with
    | .Add => "M=D+M"
    | .Sub => "M=M-D"
    | .And => "M=D&M"
    | .Or => "M=D|M"]

/-- Embedding of `codegen.rs` `CodeGen::gen_comparison_block`: allocates the three jump
labels `if_match`, `if_not_match`, `done` in that order, then emits the
branch structure.  String literals (including the four-space indentation
of the labelled bodies and the `"D; JEQ"` spacing) are verbatim. -/
def CodeGen.gen_comparison_block (cg : CodeGen) (token : ComparisonToken) :
    Except String (List String) × CodeGen :=
  let cnd_jmp := match token with
    | .Equal => "JEQ"
    | .GreaterThan => "JGT"
    | .LessThan => "JLT"
  let (if_match, cg1) := cg.get_jmp_token
  let (if_not_match, cg2) := cg1.get_jmp_token
  let (done, cg3) := cg2.get_jmp_token
  (.ok ["@SP", "M=M-1", "A=M", "D=M",
        "A=A-1", "D=M-D",
        "@" ++ if_match, "D; " ++ cnd_jmp,
        "@" ++ if_not_match, "0; JMP",
        "(" ++ if_match ++ ")",
        "    @0", "    D=A-1",
        "    @" ++ done, "    0; JMP",
        "(" ++ if_not_match ++ ")",
        "    @0", "    D=A",
        "(" ++ done ++ ")",
        "    @SP", "    A=M", "    A=A-1", "    M=D"], cg3)

/-- Embedding of `codegen.rs` `CodeGen::gen_block`. -/
def CodeGen.gen_block (cg : CodeGen) (line : Line) :
    Except String (List String) × CodeGen :=
  match line with
  | .Stack t => cg.gen_stack_block t
  | .Unary t => (CodeGen.gen_unary_block t, cg)
  | .Binary t => (CodeGen.gen_binary_block t, cg)
  | .Comparison t => cg.gen_comparison_block t

/-- Embedding of `parser.rs` `Asm`. -/
structure Asm where
  src : String
  bin : List String
deriving DecidableEq

/-- Embedding of `parser.rs` `Parser`.  The `filename` field is stored and otherwise
unused by the core. -/
structure Parser where
  lines : List Line
  asm : List Asm
  cg : CodeGen
  filename : String
deriving DecidableEq

/-- Embedding of `parser.rs` `Parser::new`. -/
def Parser.new (filename : String) : Parser :=
  { lines := [], asm := [], cg := CodeGen.new, filename := filename }

/-- Embedding of `parser.rs` `Parser::process_line`.  The guard in the
source is
`!raw.starts_with("//") && raw != ""`; a guarded-out line is a silent
`Ok(())`.  On a codegen `Err` the run aborts but `self.cg` keeps whatever
mutations the generator made before failing (it is `&mut self`), hence the
possibly-updated `cg` in the error branch. -/
def Parser.process_line (p : Parser) (raw : String) : PRes Unit × Parser :=
  if (String.mk (raw.data.take 2) = "//") then (.ok (), p)
  else if raw = "" then (.ok (), p)
  else
    match Line.new raw with
    | .panicked => (.panicked, p)
    | .err e => (.err e, p)
    | .ok line =>
      let src := "// " ++ raw
      let (r, cg') := p.cg.gen_block line
      match r with
      | .error e => (.err e, { p with cg := cg' })
      | .ok bin =>
        (.ok (), { p with cg := cg',
                          lines := p.lines ++ [line],
                          asm := p.asm ++ [⟨src, bin⟩] })

/-- A translation run at the code-generator level: feed a list of parsed
instructions through `gen_block` in order, stopping at the first error,
exactly as `Translator::process` threads `process_line` with `?`. -/
def CodeGen.gen_blocks (cg : CodeGen) :
    List Line → Except String (List (List String)) × CodeGen
  | [] => (.ok [], cg)
  | l :: rest =>
    let (r, cg') := cg.gen_block l
    match r with
    | .error e => (.error e, cg')
    | .ok b =>
      let (r2, cg'') := cg'.gen_blocks rest
      match r2 with
      | .error e => (.error e, cg'')
      | .ok bs => (.ok (b :: bs), cg'')

/-! ### A fragment of the target machine

The repository emits Hack assembly as text and never executes it, so the
target machine is not part of `src/`.  Modelled from the spec: §4.4/§8
describe the intended register semantics ("pop the top element into a
transient register … `top = top OP popped`", "symbolic trace of the
documented register semantics").  `Mach` is the Hack CPU fragment the
generated straight-line blocks use: registers `A` and `D` and a RAM
(addresses as integers; address 0 is `SP`).  Word values are exact
integers rather than wrapped 16-bit words — sound for the operand
order and stack-shape facts proved here. -/
structure Mach where
  A : Int
  D : Int
  ram : Int → Int

/-- One emitted instruction, interpreted.  Only the instruction texts that
the verified blocks use are given meaning; anything else refuses to step. -/
def hackStep (m : Mach) (ins : String) : Option Mach :=
  match ins with
  | "@SP" => some { m with A := 0 }
  | "M=M-1" => some { m with ram := fun x => if x = m.A then m.ram m.A - 1 else m.ram x }
  | "M=M+1" => some { m with ram := fun x => if x = m.A then m.ram m.A + 1 else m.ram x }
  | "A=M" => some { m with A := m.ram m.A }
  | "D=M" => some { m with D := m.ram m.A }
  | "A=A-1" => some { m with A := m.A - 1 }
  | "M=M-D" => some { m with ram := fun x => if x = m.A then m.ram m.A - m.D else m.ram x }
  | "M=D+M" => some { m with ram := fun x => if x = m.A then m.D + m.ram m.A else m.ram x }
  | "M=D" => some { m with ram := fun x => if x = m.A then m.D else m.ram x }
  | "D=M-D" => some { m with D := m.ram m.A - m.D }
  | "D=A" => some { m with D := m.A }
  | _ => none

/-- Run a straight-line block. -/
def hackRun (m : Mach) : List String → Option Mach
  | [] => some m
  | i :: is =>
    match hackStep m i with
    | none => none
    | some m' => hackRun m' is

/-! ### Run-level accounting definitions used by the theorems -/

/-- Whether a parsed line is a comparison instruction. -/
def isComp : Line → Bool
  | .Comparison _ => true
  | _ => false

/-- Number of comparison instructions in a run. -/
def compCount (ls : List Line) : Nat := (ls.filter isComp).length

/-- The three labels `gen_comparison_block` hands out when the label
counter stands at `j`: `if_match`, `if_not_match`, `done`, in allocation
order. -/
def tripleAt (j : Nat) : List String :=
  [jmpLabel j, jmpLabel ((j + 1) % 256), jmpLabel ((j + 2) % 256)]

/-- Label-counter value the generator holds just before processing the
`i`-th instruction of a run started from a fresh `CodeGen`. -/
def jmpsBefore (ls : List Line) (i : Nat) : Nat :=
  ((CodeGen.new.gen_blocks (ls.take i)).2).jmps

/-- Slot-counter value the generator holds just before processing the
`i`-th instruction of a run started from a fresh `CodeGen`. -/
def vsBefore (ls : List Line) (i : Nat) : Nat :=
  ((CodeGen.new.gen_blocks (ls.take i)).2).vs

/-- The scratch-slot name a Pop processed at state `cg` stashes its target
address in (the first allocation the Pop arm performs). -/
def destSlot (cg : CodeGen) : String := vLabel cg.vs

/-- Whether a line is a Pop to a non-Constant segment. -/
def isNonConstPop : Line → Bool
  | .Stack (.Pop .constant _) => false
  | .Stack (.Pop _ _) => true
  | _ => false

/-- How many extra slots (beyond the Pop arm's own scratch slot) a line
draws from the slot counter at state `cg`: one when it is a stack move to
a Static index not yet in the static map. -/
def staticExtra (cg : CodeGen) : Line → Nat
  | .Stack (.Pop .static_ i) =>
    match cg.statics.lookup i with
    | none => 1
    | some _ => 0
  | _ => 0

/-- Total extra static-slot allocations over a run, threading the real
generator state. -/
def extrasCount (cg : CodeGen) : List Line → Nat
  | [] => 0
  | l :: rest => staticExtra cg l + extrasCount ((cg.gen_block l).2) rest

/-- Success flag of an `Except` result. -/
def isOkE {α : Type} : Except String α → Bool
  | .ok _ => true
  | .error _ => false

/-- Numeric suffix of a `JMP_<n>` label. -/
def jmpIdOf (s : String) : Nat := digitsToNat (s.data.drop 4)

/-- Numeric suffix of a `V_<n>` slot name. -/
def vIdOf (s : String) : Nat := digitsToNat (s.data.drop 2)

/-! ### Helper lemmas -/

theorem jmpIdOf_jmpLabel : ∀ k, k < 256 → jmpIdOf (jmpLabel k) = k := by decide

theorem vIdOf_vLabel : ∀ k, k < 256 → vIdOf (vLabel k) = k := by decide

theorem jmpLabel_inj {m n : Nat} (hm : m < 256) (hn : n < 256)
    (h : jmpLabel m = jmpLabel n) : m = n := by
  calc m = jmpIdOf (jmpLabel m) := (jmpIdOf_jmpLabel m hm).symm
    _ = jmpIdOf (jmpLabel n) := by rw [h]
    _ = n := jmpIdOf_jmpLabel n hn

theorem vLabel_inj {m n : Nat} (hm : m < 256) (hn : n < 256)
    (h : vLabel m = vLabel n) : m = n := by
  calc m = vIdOf (vLabel m) := (vIdOf_vLabel m hm).symm
    _ = vIdOf (vLabel n) := by rw [h]
    _ = n := vIdOf_vLabel n hn

/-- Only comparison instructions touch the label counter, and a comparison
advances it by exactly three (wrapping) ticks. -/
theorem gen_block_jmps (cg : CodeGen) (l : Line) :
    ((cg.gen_block l).2).jmps = if isComp l then (cg.jmps + 3) % 256 else cg.jmps := by
  cases l with
  | Stack t =>
    cases t with
    | Push seg i =>
      cases seg <;>
        simp [CodeGen.gen_block, CodeGen.gen_stack_block, CodeGen.get_address,
          Segment.to_address, CodeGen.get_static_variable, CodeGen.get_variable, isComp] <;>
        (try cases h : cg.statics.lookup i <;> simp [h])
    | Pop seg i =>
      cases seg <;>
        simp [CodeGen.gen_block, CodeGen.gen_stack_block, CodeGen.get_address,
          Segment.to_address, CodeGen.get_static_variable, CodeGen.get_variable, isComp] <;>
        (try cases h : cg.statics.lookup i <;> simp [h])
  | Unary t => simp [CodeGen.gen_block, isComp]
  | Binary t => simp [CodeGen.gen_block, isComp]
  | Comparison t =>
    simp [CodeGen.gen_block, CodeGen.gen_comparison_block, CodeGen.get_jmp_token,
      isComp, Nat.mod_add_mod]

/-- A run over `l :: rest` succeeds exactly when the block of `l` and the run
over `rest` from the updated state do. -/
theorem gen_blocks_cons_ok_iff (cg : CodeGen) (l : Line) (rest : List Line) :
    isOkE (cg.gen_blocks (l :: rest)).1
      = (isOkE (cg.gen_block l).1 && isOkE (((cg.gen_block l).2).gen_blocks rest).1) := by
  rcases hgb : cg.gen_block l with ⟨r, cg'⟩
  rcases r with e | b
  · simp [CodeGen.gen_blocks, hgb, isOkE]
  · rcases hr : cg'.gen_blocks rest with ⟨r2, cg''⟩
    rcases r2 with e2 | bs <;> simp [CodeGen.gen_blocks, hgb, hr, isOkE]

/-- Once the head block succeeds, the final state of a run is the final
state of the tail run from the updated state (whether or not the tail
errors out). -/
theorem gen_blocks_cons_snd (cg : CodeGen) (l : Line) (rest : List Line)
    (h1 : isOkE (cg.gen_block l).1 = true) :
    (cg.gen_blocks (l :: rest)).2 = (((cg.gen_block l).2).gen_blocks rest).2 := by
  rcases hgb : cg.gen_block l with ⟨r, cg'⟩
  rcases r with e | b
  · rw [hgb] at h1; simp [isOkE] at h1
  · rcases hr : cg'.gen_blocks rest with ⟨r2, cg''⟩
    rcases r2 with e2 | bs <;> simp [CodeGen.gen_blocks, hgb, hr]

theorem gen_block_jmps_lt (cg : CodeGen) (l : Line) (h : cg.jmps < 256) :
    ((cg.gen_block l).2).jmps < 256 := by
  rw [gen_block_jmps]
  split
  · exact Nat.mod_lt _ (by omega)
  · exact h

/-- A successful run stays successful when truncated. -/
theorem gen_blocks_take_ok : ∀ (ls : List Line) (cg : CodeGen) (i : Nat),
    isOkE (cg.gen_blocks ls).1 = true → isOkE (cg.gen_blocks (ls.take i)).1 = true
  | [], cg, i, h => by simpa using h
  | l :: rest, cg, i, h => by
    cases i with
    | zero => simp [CodeGen.gen_blocks, isOkE]
    | succ i' =>
      rw [gen_blocks_cons_ok_iff, Bool.and_eq_true] at h
      rw [List.take_succ_cons, gen_blocks_cons_ok_iff, Bool.and_eq_true]
      exact ⟨h.1, gen_blocks_take_ok rest ((cg.gen_block l).2) i' h.2⟩

theorem compCount_cons (l : Line) (xs : List Line) :
    compCount (l :: xs) = (if isComp l then 1 else 0) + compCount xs := by
  simp [compCount, List.filter_cons]
  split <;> simp [Nat.add_comm]

/-- Label-counter value along a successful run: three ticks per comparison
processed so far. -/
theorem gen_blocks_take_jmps : ∀ (ls : List Line) (cg : CodeGen) (i : Nat),
    isOkE (cg.gen_blocks ls).1 = true → cg.jmps < 256 →
    ((cg.gen_blocks (ls.take i)).2).jmps = (cg.jmps + 3 * compCount (ls.take i)) % 256
  | [], cg, i, _, hlt => by
    simp [List.take_nil, CodeGen.gen_blocks, compCount, Nat.mod_eq_of_lt hlt]
  | l :: rest, cg, i, hok, hlt => by
    cases i with
    | zero => simp [CodeGen.gen_blocks, compCount, Nat.mod_eq_of_lt hlt]
    | succ i' =>
      rw [gen_blocks_cons_ok_iff, Bool.and_eq_true] at hok
      have htail := gen_blocks_take_jmps rest ((cg.gen_block l).2) i' hok.2
        (gen_block_jmps_lt cg l hlt)
      rw [List.take_succ_cons, gen_blocks_cons_snd cg l (rest.take i') hok.1, htail,
        gen_block_jmps, compCount_cons]
      by_cases hc : isComp l <;> simp [hc]
      congr 1
      ring

theorem compCount_append (xs ys : List Line) :
    compCount (xs ++ ys) = compCount xs + compCount ys := by
  simp [compCount, List.filter_append]

theorem compCount_take_mono (ls : List Line) {i j : Nat} (h : i ≤ j) :
    compCount (ls.take i) ≤ compCount (ls.take j) := by
  have h2 : (ls.take j).take i = ls.take i := by
    rw [List.take_take, Nat.min_eq_left h]
  calc compCount (ls.take i) = compCount ((ls.take j).take i) := by rw [h2]
    _ ≤ compCount ((ls.take j).take i) + compCount ((ls.take j).drop i) :=
        Nat.le_add_right _ _
    _ = compCount (ls.take j) := by rw [← compCount_append, List.take_append_drop]

theorem compCount_take_le (ls : List Line) (i : Nat) :
    compCount (ls.take i) ≤ compCount ls := by
  conv_rhs => rw [← List.take_append_drop i ls]
  rw [compCount_append]
  exact Nat.le_add_right _ _

theorem compCount_take_succ (ls : List Line) (i : Nat) (h : i < ls.length) :
    compCount (ls.take (i + 1))
      = compCount (ls.take i) + (if isComp ls[i] then 1 else 0) := by
  rw [← List.take_concat_get' ls i h, compCount_append]
  simp [compCount, List.filter_cons]
  split <;> simp

/-- The emitted lines of a generator result (empty on error). -/
def blockOf (r : Except String (List String)) : List String :=
  match r with
  | .ok l => l
  | .error _ => []

theorem lookup_cons_self (i : Nat) (v : String) (s : List (Nat × String)) :
    List.lookup i ((i, v) :: s) = some v := by
  simp [List.lookup]

theorem lookup_cons_ne (i k : Nat) (v : String) (s : List (Nat × String))
    (h : i ≠ k) : List.lookup i ((k, v) :: s) = List.lookup i s := by
  have hb : (i == k) = false := by simp [h]
  simp [List.lookup, hb]

theorem lookup_mem : ∀ (s : List (Nat × String)) (k : Nat) (v : String),
    s.lookup k = some v → (k, v) ∈ s
  | [], _, _, h => by simp [List.lookup] at h
  | (a, b) :: s, k, v, h => by
    by_cases hk : k = a
    · subst hk
      rw [lookup_cons_self] at h
      simp [Option.some_inj.mp h]
    · rw [lookup_cons_ne _ _ _ _ hk] at h
      exact List.mem_cons_of_mem _ (lookup_mem s k v h)

theorem staticExtra_le (cg : CodeGen) (l : Line) : staticExtra cg l ≤ 1 := by
  cases l with
  | Stack t =>
    cases t with
    | Push seg i => cases seg <;> simp [staticExtra]
    | Pop seg i =>
      cases seg <;> simp [staticExtra] <;>
        (first
          | rfl
          | (cases h : cg.statics.lookup i <;> simp [h]))
  | Unary t => simp [staticExtra]
  | Binary t => simp [staticExtra]
  | Comparison t => simp [staticExtra]

/-- A Pop to a non-Constant segment never fails. -/
theorem gen_block_pop_ok (cg : CodeGen) (l : Line) (hl : isNonConstPop l = true) :
    isOkE (cg.gen_block l).1 = true := by
  cases l with
  | Stack t =>
    cases t with
    | Push seg i => simp [isNonConstPop] at hl
    | Pop seg i =>
      cases seg <;>
        simp [isNonConstPop] at hl <;>
        simp [CodeGen.gen_block, CodeGen.gen_stack_block, CodeGen.get_address,
          Segment.to_address, CodeGen.get_static_variable, CodeGen.get_variable, isOkE] <;>
        (try cases h : cg.statics.lookup i <;> simp [h, isOkE])
  | Unary t => simp [isNonConstPop] at hl
  | Binary t => simp [isNonConstPop] at hl
  | Comparison t => simp [isNonConstPop] at hl

/-- A non-Constant Pop advances the slot counter by one tick for its
scratch slot, plus one more when it references a first-seen Static index;
and its emitted block addresses the freshly allocated scratch slot. -/
theorem gen_block_vs_pop (cg : CodeGen) (l : Line) (hl : isNonConstPop l = true)
    (h : cg.vs < 256) :
    ((cg.gen_block l).2).vs = (cg.vs + 1 + staticExtra cg l) % 256
    ∧ "@" ++ destSlot cg ∈ blockOf (cg.gen_block l).1 := by
  cases l with
  | Stack t =>
    cases t with
    | Push seg i => simp [isNonConstPop] at hl
    | Pop seg i =>
      cases seg <;>
        simp [isNonConstPop] at hl <;>
        simp [CodeGen.gen_block, CodeGen.gen_stack_block, CodeGen.get_address,
          Segment.to_address, CodeGen.get_static_variable, CodeGen.get_variable,
          staticExtra, destSlot, blockOf] <;>
        (try cases hst : cg.statics.lookup i <;>
          simp [hst, Nat.mod_add_mod, blockOf, destSlot])
  | Unary t => simp [isNonConstPop] at hl
  | Binary t => simp [isNonConstPop] at hl
  | Comparison t => simp [isNonConstPop] at hl

theorem gen_block_vs_pop_lt (cg : CodeGen) (l : Line) (hl : isNonConstPop l = true)
    (h : cg.vs < 256) : ((cg.gen_block l).2).vs < 256 := by
  rw [(gen_block_vs_pop cg l hl h).1]
  exact Nat.mod_lt _ (by omega)

/-- Slot counter over a run of non-Constant Pops: one tick per pop plus
the first-seen-static extras. -/
theorem gen_blocks_vs_pops : ∀ (ls : List Line) (cg : CodeGen),
    (∀ l ∈ ls, isNonConstPop l = true) → cg.vs < 256 →
    ((cg.gen_blocks ls).2).vs = (cg.vs + ls.length + extrasCount cg ls) % 256
  | [], cg, _, hlt => by
    simp [CodeGen.gen_blocks, extrasCount, Nat.mod_eq_of_lt hlt]
  | l :: rest, cg, hall, hlt => by
    have hl : isNonConstPop l = true := hall l (List.mem_cons_self l rest)
    have hok := gen_block_pop_ok cg l hl
    rw [gen_blocks_cons_snd cg l rest hok]
    have htail := gen_blocks_vs_pops rest ((cg.gen_block l).2)
      (fun x hx => hall x (List.mem_cons_of_mem l hx))
      (gen_block_vs_pop_lt cg l hl hlt)
    rw [htail, (gen_block_vs_pop cg l hl hlt).1]
    show _ = (cg.vs + (rest.length + 1) + (staticExtra cg l + extrasCount ((cg.gen_block l).2) rest)) % 256
    rw [Nat.add_assoc, Nat.mod_add_mod]
    congr 1
    ring

/-- Invariant threading the number `n` of slot allocations performed so
far through a run: the slot counter mirrors `n` (mod 256), every recorded
static slot name is `V_<m>` for some allocation `m < n`, and distinct
static indices hold distinct names. -/
def StInv (cg : CodeGen) (n : Nat) : Prop :=
  n ≤ 256 ∧ cg.vs = n % 256 ∧
  (∀ p ∈ cg.statics, ∃ m, m < n ∧ p.2 = vLabel m) ∧
  (∀ i j vi vj, i ≠ j → cg.statics.lookup i = some vi →
    cg.statics.lookup j = some vj → vi ≠ vj)

theorem StInv.vs_lt {cg : CodeGen} {n : Nat} (h : StInv cg n) : cg.vs < 256 := by
  rw [h.2.1]
  exact Nat.mod_lt _ (by omega)

theorem StInv_of_fields {cg cg' : CodeGen} {n : Nat} (h : StInv cg n)
    (hv : cg'.vs = cg.vs) (hs : cg'.statics = cg.statics) : StInv cg' n := by
  obtain ⟨h1, h2, h3, h4⟩ := h
  exact ⟨h1, by rw [hv, h2], by rw [hs]; exact h3, by rw [hs]; exact h4⟩

theorem StInv_get_variable (cg : CodeGen) (n : Nat) (h : StInv cg n)
    (hroom : n + 1 ≤ 256) : StInv (cg.get_variable).2 (n + 1) := by
  obtain ⟨h1, h2, h3, h4⟩ := h
  refine ⟨by omega, ?_, ?_, h4⟩
  · show (cg.vs + 1) % 256 = (n + 1) % 256
    rw [h2, Nat.mod_add_mod]
  · exact fun p hp => (h3 p hp).elim (fun m hm => ⟨m, by omega, hm.2⟩)

theorem StInv_static_fresh (cg : CodeGen) (n i : Nat) (h : StInv cg n)
    (hroom : n + 1 ≤ 256) (hl : cg.statics.lookup i = none) :
    (cg.get_static_variable i).1 = vLabel n
    ∧ (cg.get_static_variable i).2
        = { jmps := cg.jmps, vs := (cg.vs + 1) % 256,
            statics := (i, vLabel cg.vs) :: cg.statics }
    ∧ StInv (cg.get_static_variable i).2 (n + 1) := by
  obtain ⟨h1, h2, h3, h4⟩ := h
  have hn : cg.vs = n := by rw [h2]; exact Nat.mod_eq_of_lt (by omega)
  refine ⟨?_, ?_, ?_⟩
  · simp [CodeGen.get_static_variable, hl, CodeGen.get_variable, hn]
  · simp [CodeGen.get_static_variable, hl, CodeGen.get_variable]
  · simp only [CodeGen.get_static_variable, hl, CodeGen.get_variable]
    refine ⟨by omega, ?_, ?_, ?_⟩
    · show (cg.vs + 1) % 256 = (n + 1) % 256
      rw [h2, Nat.mod_add_mod]
    · intro p hp
      rcases List.mem_cons.mp hp with hp | hp
      · exact ⟨n, by omega, by rw [hp, hn]⟩
      · obtain ⟨m, hm, he⟩ := h3 p hp
        exact ⟨m, by omega, he⟩
    · intro a b va vb hab hla hlb
      by_cases haa : a = i
      · subst haa
        rw [lookup_cons_self] at hla
        have hbb : b ≠ a := fun he => hab he.symm
        rw [lookup_cons_ne _ _ _ _ hbb] at hlb
        obtain ⟨m, hm, he⟩ := h3 (b, vb) (lookup_mem _ _ _ hlb)
        have he' : vb = vLabel m := he
        rw [← Option.some_inj.mp hla, hn, he']
        intro heq
        have := vLabel_inj (by omega) (by omega) heq
        omega
      · by_cases hbb : b = i
        · subst hbb
          rw [lookup_cons_self] at hlb
          rw [lookup_cons_ne _ _ _ _ haa] at hla
          obtain ⟨m, hm, he⟩ := h3 (a, va) (lookup_mem _ _ _ hla)
          have he' : va = vLabel m := he
          rw [← Option.some_inj.mp hlb, hn, he']
          intro heq
          have := vLabel_inj (by omega) (by omega) heq
          omega
        · rw [lookup_cons_ne _ _ _ _ haa] at hla
          rw [lookup_cons_ne _ _ _ _ hbb] at hlb
          exact h4 a b va vb hab hla hlb

theorem StInv_static_seen (cg : CodeGen) (i : Nat) (v : String)
    (hl : cg.statics.lookup i = some v) :
    cg.get_static_variable i = (v, cg) := by
  simp [CodeGen.get_static_variable, hl]

/-- Every instruction performs at most two slot allocations and preserves
the allocation invariant. -/
theorem gen_block_StInv (cg : CodeGen) (l : Line) (n : Nat)
    (h : StInv cg n) (hroom : n + 2 ≤ 256) :
    ∃ n', n ≤ n' ∧ n' ≤ n + 2 ∧ StInv ((cg.gen_block l).2) n' := by
  cases l with
  | Stack t =>
    cases t with
    | Push seg i =>
      cases seg
      case static_ =>
        cases hst : cg.statics.lookup i with
        | some v =>
          refine ⟨n, le_refl n, by omega, ?_⟩
          have hs := StInv_static_seen cg i v hst
          simp [CodeGen.gen_block, CodeGen.gen_stack_block, CodeGen.get_address, hs]
          exact h
        | none =>
          obtain ⟨-, -, hinv⟩ := StInv_static_fresh cg n i h (by omega) hst
          refine ⟨n + 1, by omega, by omega, ?_⟩
          rcases hgs : cg.get_static_variable i with ⟨v, cg'⟩
          rw [hgs] at hinv
          simp [CodeGen.gen_block, CodeGen.gen_stack_block, CodeGen.get_address, hgs]
          exact hinv
      all_goals
        refine ⟨n, le_refl n, by omega, ?_⟩ <;>
        exact StInv_of_fields h (by simp [CodeGen.gen_block, CodeGen.gen_stack_block,
          CodeGen.get_address, Segment.to_address]) (by simp [CodeGen.gen_block,
          CodeGen.gen_stack_block, CodeGen.get_address, Segment.to_address])
    | Pop seg i =>
      cases seg
      case constant =>
        exact ⟨n, le_refl n, by omega, StInv_of_fields h (by simp [CodeGen.gen_block,
          CodeGen.gen_stack_block]) (by simp [CodeGen.gen_block, CodeGen.gen_stack_block])⟩
      case static_ =>
        have h1 := StInv_get_variable cg n h (by omega)
        cases hst : ((cg.get_variable).2).statics.lookup i with
        | some v =>
          refine ⟨n + 1, by omega, by omega, ?_⟩
          have hs := StInv_static_seen _ i v hst
          simp [CodeGen.gen_block, CodeGen.gen_stack_block, CodeGen.get_address, hs]
          exact h1
        | none =>
          obtain ⟨-, -, hinv⟩ := StInv_static_fresh _ (n + 1) i h1 (by omega) hst
          refine ⟨n + 2, by omega, by omega, ?_⟩
          rcases hgs : ((cg.get_variable).2).get_static_variable i with ⟨v, cg'⟩
          rw [hgs] at hinv
          simp [CodeGen.gen_block, CodeGen.gen_stack_block, CodeGen.get_address, hgs]
          exact hinv
      all_goals
        refine ⟨n + 1, by omega, by omega, ?_⟩ <;>
        exact StInv_of_fields (StInv_get_variable cg n h (by omega))
          (by simp [CodeGen.gen_block, CodeGen.gen_stack_block, CodeGen.get_address,
            Segment.to_address])
          (by simp [CodeGen.gen_block, CodeGen.gen_stack_block, CodeGen.get_address,
            Segment.to_address])
  | Unary t =>
    exact ⟨n, le_refl n, by omega, StInv_of_fields h rfl rfl⟩
  | Binary t =>
    exact ⟨n, le_refl n, by omega, StInv_of_fields h rfl rfl⟩
  | Comparison t =>
    refine ⟨n, le_refl n, by omega, ?_⟩
    exact StInv_of_fields h
      (by simp [CodeGen.gen_block, CodeGen.gen_comparison_block, CodeGen.get_jmp_token])
      (by simp [CodeGen.gen_block, CodeGen.gen_comparison_block, CodeGen.get_jmp_token])

/-- If the head block errors, the run's final state is the head's state. -/
theorem gen_blocks_cons_snd_err (cg : CodeGen) (l : Line) (rest : List Line)
    (e : String) (h : (cg.gen_block l).1 = .error e) :
    (cg.gen_blocks (l :: rest)).2 = (cg.gen_block l).2 := by
  rcases hgb : cg.gen_block l with ⟨r, cg'⟩
  rw [hgb] at h
  simp at h
  subst h
  simp [CodeGen.gen_blocks, hgb]

theorem gen_blocks_StInv : ∀ (ls : List Line) (cg : CodeGen) (n : Nat),
    StInv cg n → n + 2 * ls.length ≤ 256 →
    ∃ n', n ≤ n' ∧ n' ≤ n + 2 * ls.length ∧ StInv ((cg.gen_blocks ls).2) n'
  | [], cg, n, h, _ => ⟨n, le_refl n, by omega, h⟩
  | l :: rest, cg, n, h, hroom => by
    obtain ⟨n1, hn1a, hn1b, h1⟩ := gen_block_StInv cg l n h
      (by simp [List.length_cons] at hroom; omega)
    rcases hgb : (cg.gen_block l).1 with e | b
    · refine ⟨n1, hn1a, ?_, ?_⟩
      · simp [List.length_cons]; omega
      · rw [gen_blocks_cons_snd_err cg l rest e hgb]
        exact h1
    · rw [gen_blocks_cons_snd cg l rest (by simp [hgb, isOkE])]
      obtain ⟨n2, hn2a, hn2b, h2⟩ := gen_blocks_StInv rest ((cg.gen_block l).2) n1 h1
        (by simp [List.length_cons] at hroom; omega)
      exact ⟨n2, by omega, by simp [List.length_cons]; omega, h2⟩

/-- The generator never overwrites a recorded static slot. -/
theorem gen_block_statics_mono (cg : CodeGen) (l : Line) (i : Nat) (v : String)
    (h : cg.statics.lookup i = some v) :
    ((cg.gen_block l).2).statics.lookup i = some v := by
  cases l with
  | Stack t =>
    cases t with
    | Push seg k =>
      cases seg
      case static_ =>
        cases hst : cg.statics.lookup k with
        | some w =>
          have hs := StInv_static_seen cg k w hst
          simp [CodeGen.gen_block, CodeGen.gen_stack_block, CodeGen.get_address, hs]
          exact h
        | none =>
          have hik : i ≠ k := fun he => by rw [he, hst] at h; exact Option.noConfusion h
          simp [CodeGen.gen_block, CodeGen.gen_stack_block, CodeGen.get_address,
            CodeGen.get_static_variable, hst, CodeGen.get_variable]
          rw [lookup_cons_ne _ _ _ _ hik]
          exact h
      all_goals
        simp [CodeGen.gen_block, CodeGen.gen_stack_block, CodeGen.get_address,
          Segment.to_address] <;> exact h
    | Pop seg k =>
      cases seg
      case constant =>
        simp [CodeGen.gen_block, CodeGen.gen_stack_block]
        exact h
      case static_ =>
        cases hst : cg.statics.lookup k with
        | some w =>
          have hs : ((cg.get_variable).2).statics.lookup k = some w := hst
          simp [CodeGen.gen_block, CodeGen.gen_stack_block, CodeGen.get_address,
            StInv_static_seen _ k w hs]
          exact h
        | none =>
          have hik : i ≠ k := fun he => by rw [he, hst] at h; exact Option.noConfusion h
          simp [CodeGen.gen_block, CodeGen.gen_stack_block, CodeGen.get_address,
            CodeGen.get_static_variable, hst, CodeGen.get_variable]
          rw [lookup_cons_ne _ _ _ _ hik]
          exact h
      all_goals
        simp [CodeGen.gen_block, CodeGen.gen_stack_block, CodeGen.get_address,
          Segment.to_address] <;> exact h
  | Unary t => exact h
  | Binary t => exact h
  | Comparison t =>
    simp [CodeGen.gen_block, CodeGen.gen_comparison_block, CodeGen.get_jmp_token]
    exact h

/-! ### Claim theorems -/

/-- Claim C1. For every Push with a non-Constant segment the emitted assembly
computes the effective address indirectly (`A=D+M` after loading the base
register `LCL`/`ARG`/`THIS`/`THAT`, or the static slot name) for
Local/Argument/This/That/Static, and directly (`A=D+A` on the fixed bases
`5`/`3`, no dereference) for Temp/Pointer; every push then writes the
resolved value through the stack pointer and increments it
(`@SP, A=M, M=D, @SP, M=M+1`); Push Constant loads the index as an
immediate (`@index, D=A`). -/
theorem push_effective_address_modes (cg : CodeGen) (i : Nat) :
    cg.gen_stack_block (.Push .local_ i)
      = (.ok ["@" ++ Nat.repr i, "D=A", "@LCL", "A=D+M", "D=M",
              "@SP", "A=M", "M=D", "@SP", "M=M+1"], cg)
    ∧ cg.gen_stack_block (.Push .argument i)
      = (.ok ["@" ++ Nat.repr i, "D=A", "@ARG", "A=D+M", "D=M",
              "@SP", "A=M", "M=D", "@SP", "M=M+1"], cg)
    ∧ cg.gen_stack_block (.Push .this i)
      = (.ok ["@" ++ Nat.repr i, "D=A", "@THIS", "A=D+M", "D=M",
              "@SP", "A=M", "M=D", "@SP", "M=M+1"], cg)
    ∧ cg.gen_stack_block (.Push .that i)
      = (.ok ["@" ++ Nat.repr i, "D=A", "@THAT", "A=D+M", "D=M",
              "@SP", "A=M", "M=D", "@SP", "M=M+1"], cg)
    ∧ cg.gen_stack_block (.Push .static_ i)
      = (.ok ["@" ++ Nat.repr i, "D=A", "@" ++ (cg.get_static_variable i).1, "A=D+M", "D=M",
              "@SP", "A=M", "M=D", "@SP", "M=M+1"], (cg.get_static_variable i).2)
    ∧ cg.gen_stack_block (.Push .temp i)
      = (.ok ["@" ++ Nat.repr i, "D=A", "@5", "A=D+A", "D=M",
              "@SP", "A=M", "M=D", "@SP", "M=M+1"], cg)
    ∧ cg.gen_stack_block (.Push .pointer i)
      = (.ok ["@" ++ Nat.repr i, "D=A", "@3", "A=D+A", "D=M",
              "@SP", "A=M", "M=D", "@SP", "M=M+1"], cg)
    ∧ cg.gen_stack_block (.Push .constant i)
      = (.ok ["@" ++ Nat.repr i, "D=A", "@SP", "A=M", "M=D", "@SP", "M=M+1"], cg) := by
  refine ⟨?_, ?_, ?_, ?_, ?_, ?_, ?_, ?_⟩ <;>
    simp [CodeGen.gen_stack_block, CodeGen.get_address, Segment.to_address]

/-- Claim C2 (amended). Each comparison allocates exactly three fresh labels,
in the order `if_match`, `if_not_match`, `done`, each one (wrapping) tick
of the label counter; and in a successful run holding at most 85
comparisons, the label triples of two distinct comparison instructions are
pairwise disjoint.  (The bound is forced by the 8-bit label counter: see
the counterexample at 86 comparisons.) -/
theorem comparison_label_freshness (cg : CodeGen) (tok : ComparisonToken)
    (ls : List Line)
    (hok : isOkE ((CodeGen.new.gen_blocks ls).1) = true)
    (hcnt : compCount ls ≤ 85)
    (i j : Nat) (hij : i < j) (hj : j < ls.length)
    (hci : isComp (ls.get ⟨i, Nat.lt_trans hij hj⟩) = true)
    (hcj : isComp (ls.get ⟨j, hj⟩) = true) :
    cg.gen_comparison_block tok
      = (.ok ["@SP", "M=M-1", "A=M", "D=M", "A=A-1", "D=M-D",
              "@" ++ jmpLabel cg.jmps,
              "D; " ++ (match tok with
                        | .Equal => "JEQ"
                        | .GreaterThan => "JGT"
                        | .LessThan => "JLT"),
              "@" ++ jmpLabel ((cg.jmps + 1) % 256), "0; JMP",
              "(" ++ jmpLabel cg.jmps ++ ")",
              "    @0", "    D=A-1",
              "    @" ++ jmpLabel ((cg.jmps + 2) % 256), "    0; JMP",
              "(" ++ jmpLabel ((cg.jmps + 1) % 256) ++ ")",
              "    @0", "    D=A",
              "(" ++ jmpLabel ((cg.jmps + 2) % 256) ++ ")",
              "    @SP", "    A=M", "    A=A-1", "    M=D"],
         { cg with jmps := (cg.jmps + 3) % 256 })
    ∧ ∀ x ∈ tripleAt (jmpsBefore ls i), x ∉ tripleAt (jmpsBefore ls j) := by
  constructor
  · cases tok <;>
      simp [CodeGen.gen_comparison_block, CodeGen.get_jmp_token, Nat.mod_add_mod]
  · have hnew : (CodeGen.new).jmps < 256 := by decide
    have hgi : jmpsBefore ls i = (CodeGen.new.jmps + 3 * compCount (ls.take i)) % 256 :=
      gen_blocks_take_jmps ls CodeGen.new i hok hnew
    have hgj : jmpsBefore ls j = (CodeGen.new.jmps + 3 * compCount (ls.take j)) % 256 :=
      gen_blocks_take_jmps ls CodeGen.new j hok hnew
    have hab : compCount (ls.take i) + 1 ≤ compCount (ls.take j) := by
      have hstep : compCount (ls.take (i + 1))
          = compCount (ls.take i) + 1 := by
        rw [compCount_take_succ ls i (Nat.lt_trans hij hj)]
        simp [List.get_eq_getElem] at hci
        simp [hci]
      have := @compCount_take_mono ls (i + 1) j (by omega)
      omega
    have hbt : compCount (ls.take j) + 1 ≤ compCount ls := by
      have hstep : compCount (ls.take (j + 1))
          = compCount (ls.take j) + 1 := by
        rw [compCount_take_succ ls j hj]
        simp [List.get_eq_getElem] at hcj
        simp [hcj]
      have := compCount_take_le ls (j + 1)
      omega
    have ha : compCount (ls.take i) ≤ 83 := by omega
    have hb : compCount (ls.take j) ≤ 84 := by omega
    have hi' : jmpsBefore ls i = 3 * compCount (ls.take i) := by
      rw [hgi]
      show (0 + 3 * compCount (ls.take i)) % 256 = _
      rw [Nat.zero_add, Nat.mod_eq_of_lt (by omega)]
    have hj' : jmpsBefore ls j = 3 * compCount (ls.take j) := by
      rw [hgj]
      show (0 + 3 * compCount (ls.take j)) % 256 = _
      rw [Nat.zero_add, Nat.mod_eq_of_lt (by omega)]
    intro x hx hx'
    rw [hi'] at hx
    rw [hj'] at hx'
    simp only [tripleAt, List.mem_cons, List.not_mem_nil, or_false,
      Nat.mod_eq_of_lt (show 3 * compCount (ls.take i) + 1 < 256 by omega),
      Nat.mod_eq_of_lt (show 3 * compCount (ls.take i) + 2 < 256 by omega),
      Nat.mod_eq_of_lt (show 3 * compCount (ls.take j) + 1 < 256 by omega),
      Nat.mod_eq_of_lt (show 3 * compCount (ls.take j) + 2 < 256 by omega)] at hx hx'
    rcases hx with rfl | rfl | rfl <;> rcases hx' with h' | h' | h' <;>
      exact absurd (jmpLabel_inj (by omega) (by omega) h') (by omega)

/-- Witness for C2 at a concrete two-comparison run. -/
theorem comparison_label_freshness_witness :
    (isOkE ((CodeGen.new.gen_blocks [Line.Comparison .Equal, Line.Comparison .LessThan]).1) = true)
    ∧ compCount [Line.Comparison .Equal, Line.Comparison .LessThan] ≤ 85
    ∧ (∀ x ∈ tripleAt (jmpsBefore [Line.Comparison .Equal, Line.Comparison .LessThan] 0),
        x ∉ tripleAt (jmpsBefore [Line.Comparison .Equal, Line.Comparison .LessThan] 1)) :=
  ⟨by decide, by decide,
    (comparison_label_freshness CodeGen.new .Equal
      [Line.Comparison .Equal, Line.Comparison .LessThan]
      (by decide) (by decide) 0 1 (by decide) (by decide) (by decide) (by decide)).2⟩

/-- C2 as literally stated is false for an unbounded number of comparisons:
in a run of 86 comparisons the u8 label counter wraps and the 1st and the
86th comparison both receive the label `JMP_0`. -/
theorem comparison_label_freshness_cex :
    isOkE ((CodeGen.new.gen_blocks (List.replicate 86 (Line.Comparison .Equal))).1) = true
    ∧ isComp ((List.replicate 86 (Line.Comparison .Equal)).get ⟨0, by decide⟩) = true
    ∧ isComp ((List.replicate 86 (Line.Comparison .Equal)).get ⟨85, by decide⟩) = true
    ∧ "JMP_0" ∈ tripleAt (jmpsBefore (List.replicate 86 (Line.Comparison .Equal)) 0)
    ∧ "JMP_0" ∈ tripleAt (jmpsBefore (List.replicate 86 (Line.Comparison .Equal)) 85) := by
  decide

/-- Claim C7. On a stack whose two topmost elements are `x` (pushed first,
at `SP-2`) and `y` (pushed second, at `SP-1`), the Subtract block leaves
`x - y` at the new top and decrements the stack pointer by one, touching
no other RAM cell; and the straight-line prelude of the comparison family (the
six instructions before any branch) computes its working value `D` with
the same `first-pushed − second-pushed` order. -/
theorem subtract_operand_order (m : Mach) (sp x y : Int)
    (hsp : 2 < sp) (h0 : m.ram 0 = sp) (hx : m.ram (sp - 2) = x) (hy : m.ram (sp - 1) = y) :
    CodeGen.gen_binary_block .Sub
      = .ok ["@SP", "M=M-1", "A=M", "D=M", "A=A-1", "M=M-D"]
    ∧ (∃ m', hackRun m ["@SP", "M=M-1", "A=M", "D=M", "A=A-1", "M=M-D"] = some m'
        ∧ m'.ram 0 = sp - 1
        ∧ m'.ram (sp - 2) = x - y
        ∧ (∀ a : Int, a ≠ 0 → a ≠ sp - 2 → m'.ram a = m.ram a))
    ∧ (∀ (cg : CodeGen) (tok : ComparisonToken),
        (blockOf (cg.gen_comparison_block tok).1).take 6
          = ["@SP", "M=M-1", "A=M", "D=M", "A=A-1", "D=M-D"]
        ∧ ∃ m'', hackRun m ["@SP", "M=M-1", "A=M", "D=M", "A=A-1", "D=M-D"] = some m''
            ∧ m''.D = x - y) := by
  have h1 : (sp : Int) - 1 ≠ 0 := by omega
  have h2 : (sp : Int) - 2 ≠ 0 := by omega
  have h4 : (sp : Int) - 1 - 1 = sp - 2 := by ring
  refine ⟨rfl, ?_, ?_⟩
  · simp [hackRun, hackStep, h0, h1, h2, h4]
    refine ⟨fun h => absurd h.symm h2, by rw [hx, hy], fun a ha0 ha2 => ?_⟩
    rw [if_neg ha2, if_neg ha0]
  · intro cg tok
    constructor
    · cases tok <;> rfl
    · simp [hackRun, hackStep, h0, h1, h2, h4, hx, hy]

/-- Claim C3 (amended). A non-Constant Pop always allocates one fresh scratch
slot (addressed in its emitted block), plus one extra slot exactly when it
references a first-seen Static index; over k such pops the slot counter
advances by k plus the number of first-seen static references (mod 256,
the counter being a u8); and the scratch-slot names of two consecutive
pops are distinct. -/
theorem pop_slot_allocation :
    (∀ (cg : CodeGen) (l : Line), isNonConstPop l = true → cg.vs < 256 →
      ((cg.gen_block l).2).vs = (cg.vs + 1 + staticExtra cg l) % 256
      ∧ "@" ++ destSlot cg ∈ blockOf (cg.gen_block l).1)
    ∧ (∀ (ls : List Line) (cg : CodeGen),
        (∀ l ∈ ls, isNonConstPop l = true) → cg.vs < 256 →
        ((cg.gen_blocks ls).2).vs = (cg.vs + ls.length + extrasCount cg ls) % 256)
    ∧ (∀ (cg : CodeGen) (l1 l2 : Line),
        isNonConstPop l1 = true → isNonConstPop l2 = true → cg.vs < 256 →
        destSlot cg ≠ destSlot ((cg.gen_block l1).2)) := by
  refine ⟨gen_block_vs_pop, gen_blocks_vs_pops, ?_⟩
  intro cg l1 l2 h1 h2 hlt heq
  have hvs := (gen_block_vs_pop cg l1 h1 hlt).1
  have he := staticExtra_le cg l1
  have hlt' : ((cg.gen_block l1).2).vs < 256 := by
    rw [hvs]; exact Nat.mod_lt _ (by omega)
  have heq' := vLabel_inj hlt hlt' heq
  rw [hvs] at heq'
  omega

/-- Witness for C3: a first-seen static pop, a two-pop run, and two
consecutive pops. -/
theorem pop_slot_allocation_witness :
    (isNonConstPop (Line.Stack (.Pop .static_ 0)) = true)
    ∧ CodeGen.new.vs < 256
    ∧ (((CodeGen.new.gen_block (Line.Stack (.Pop .static_ 0))).2).vs
        = (CodeGen.new.vs + 1 + staticExtra CodeGen.new (Line.Stack (.Pop .static_ 0))) % 256
      ∧ "@" ++ destSlot CodeGen.new
          ∈ blockOf (CodeGen.new.gen_block (Line.Stack (.Pop .static_ 0))).1)
    ∧ (∀ l ∈ [Line.Stack (.Pop .local_ 1), Line.Stack (.Pop .argument 2)],
        isNonConstPop l = true)
    ∧ (((CodeGen.new.gen_blocks [Line.Stack (.Pop .local_ 1), Line.Stack (.Pop .argument 2)]).2).vs
        = (CodeGen.new.vs + 2
            + extrasCount CodeGen.new [Line.Stack (.Pop .local_ 1), Line.Stack (.Pop .argument 2)]) % 256)
    ∧ destSlot CodeGen.new ≠ destSlot ((CodeGen.new.gen_block (Line.Stack (.Pop .static_ 5))).2) :=
  ⟨by decide, by decide,
    pop_slot_allocation.1 CodeGen.new (Line.Stack (.Pop .static_ 0)) (by decide) (by decide),
    by decide,
    pop_slot_allocation.2.1 [Line.Stack (.Pop .local_ 1), Line.Stack (.Pop .argument 2)]
      CodeGen.new (by decide) (by decide),
    pop_slot_allocation.2.2 CodeGen.new (Line.Stack (.Pop .static_ 5))
      (Line.Stack (.Pop .local_ 0)) (by decide) (by decide) (by decide)⟩

/-- C3 as literally stated is false: a Pop of a first-seen Static index
consumes two slots, not one (`pop static 0` from fresh state moves the
slot counter from 0 to 2). -/
theorem pop_slot_allocation_cex :
    ((CodeGen.new.gen_block (Line.Stack (.Pop .static_ 0))).2).vs = 2
    ∧ ((CodeGen.new.gen_block (Line.Stack (.Pop .static_ 0))).2).vs ≠ CodeGen.new.vs + 1 := by
  decide

/-- Claim C4 (amended). First reference to a Static index allocates the next
slot name from the counter and records it; later references return the
recorded name with no counter tick and the record is never overwritten;
and in a run of at most 128 instructions (so at most 256 slot
allocations — the u8 slot counter cannot wrap), distinct Static indices
hold distinct slot names. -/
theorem static_slot_memoization :
    (∀ (cg : CodeGen) (i : Nat), cg.statics.lookup i = none →
      cg.get_static_variable i
        = (vLabel cg.vs,
           { jmps := cg.jmps, vs := (cg.vs + 1) % 256,
             statics := (i, vLabel cg.vs) :: cg.statics }))
    ∧ (∀ (cg : CodeGen) (i : Nat) (v : String), cg.statics.lookup i = some v →
        cg.get_static_variable i = (v, cg))
    ∧ (∀ (cg : CodeGen) (l : Line) (i : Nat) (v : String),
        cg.statics.lookup i = some v →
        ((cg.gen_block l).2).statics.lookup i = some v)
    ∧ (∀ (ls : List Line) (i j : Nat) (vi vj : String),
        ls.length ≤ 128 → i ≠ j →
        ((CodeGen.new.gen_blocks ls).2).statics.lookup i = some vi →
        ((CodeGen.new.gen_blocks ls).2).statics.lookup j = some vj →
        vi ≠ vj) := by
  refine ⟨?_, StInv_static_seen, gen_block_statics_mono, ?_⟩
  · intro cg i hl
    simp [CodeGen.get_static_variable, hl, CodeGen.get_variable]
  · intro ls i j vi vj hlen hij hvi hvj
    have hInv0 : StInv CodeGen.new 0 :=
      ⟨by omega, rfl, by simp [CodeGen.new],
        by intro a b va vb hab hva hvb; simp [CodeGen.new, List.lookup] at hva⟩
    obtain ⟨n', -, -, hInv⟩ := gen_blocks_StInv ls CodeGen.new 0 hInv0 (by omega)
    exact hInv.2.2.2 i j vi vj hij hvi hvj

/-- Witness for C4: fresh allocation, memoized reuse, persistence, and
distinctness on a concrete two-push run. -/
theorem static_slot_memoization_witness :
    (CodeGen.new.statics.lookup 3 = none)
    ∧ CodeGen.new.get_static_variable 3
        = (vLabel CodeGen.new.vs,
           { jmps := CodeGen.new.jmps, vs := (CodeGen.new.vs + 1) % 256,
             statics := (3, vLabel CodeGen.new.vs) :: CodeGen.new.statics })
    ∧ ([Line.Stack (.Push .static_ 3), Line.Stack (.Push .static_ 4)].length ≤ 128)
    ∧ (3 : Nat) ≠ 4
    ∧ ((CodeGen.new.gen_blocks
        [Line.Stack (.Push .static_ 3), Line.Stack (.Push .static_ 4)]).2).statics.lookup 3
        = some "V_0"
    ∧ ((CodeGen.new.gen_blocks
        [Line.Stack (.Push .static_ 3), Line.Stack (.Push .static_ 4)]).2).statics.lookup 4
        = some "V_1"
    ∧ "V_0" ≠ "V_1" :=
  ⟨by decide,
    static_slot_memoization.1 CodeGen.new 3 (by decide),
    by decide, by decide, by decide, by decide,
    static_slot_memoization.2.2.2
      [Line.Stack (.Push .static_ 3), Line.Stack (.Push .static_ 4)]
      3 4 "V_0" "V_1" (by decide) (by decide) (by decide) (by decide)⟩

/-- C4 as literally stated is false without the length bound: pushing 257
distinct static indices wraps the u8 slot counter, and indices 0 and 256
— two distinct Static indices in one run — both resolve to `V_0`. -/
theorem static_slot_memoization_cex :
    ((CodeGen.new.gen_blocks
        ((List.range 257).map (fun k => Line.Stack (.Push .static_ k)))).2).statics.lookup 0
      = some "V_0"
    ∧ ((CodeGen.new.gen_blocks
        ((List.range 257).map (fun k => Line.Stack (.Push .static_ k)))).2).statics.lookup 256
      = some "V_0"
    ∧ (0 : Nat) ≠ 256 := by
  decide

/-- Witness for C7 on a concrete machine (`SP = 10`, stack `…, 7, 3`). -/
theorem subtract_operand_order_witness :
    (2 : Int) < 10
    ∧ (fun a : Int => if a = 0 then (10 : Int) else if a = 8 then 7 else if a = 9 then 3 else 0) 0 = 10
    ∧ (∃ m', hackRun ⟨0, 0, fun a : Int => if a = 0 then (10 : Int) else if a = 8 then 7 else if a = 9 then 3 else 0⟩
          ["@SP", "M=M-1", "A=M", "D=M", "A=A-1", "M=M-D"] = some m'
        ∧ m'.ram 0 = 10 - 1
        ∧ m'.ram (10 - 2) = 7 - 3
        ∧ (∀ a : Int, a ≠ 0 → a ≠ 10 - 2 → m'.ram a
            = (fun a : Int => if a = 0 then (10 : Int) else if a = 8 then 7 else if a = 9 then 3 else 0) a)) :=
  ⟨by norm_num, by norm_num,
    (subtract_operand_order
      ⟨0, 0, fun a : Int => if a = 0 then (10 : Int) else if a = 8 then 7 else if a = 9 then 3 else 0⟩
      10 7 3 (by norm_num) (by norm_num) (by norm_num) (by norm_num)).2.1⟩

theorem stripSign_of_digit (ch : Char) (rest : List Char)
    (hch : ch.isDigit = true) : stripSign (ch :: rest) = ch :: rest := by
  unfold stripSign
  split
  · next r heq =>
    injection heq with he1 he2
    rw [he1] at hch
    exact absurd hch (by decide)
  · rfl

theorem parseU16_overflow (s : String) (h1 : s.data ≠ [])
    (h2 : s.data.all Char.isDigit = true) (h3 : 65535 < digitsToNat s.data) :
    parseU16 s = .error "number too large to fit in target type" := by
  rcases hd : s.data with _ | ⟨ch, rest⟩
  · exact absurd hd h1
  · rw [hd] at h2 h3
    have hch : ch.isDigit = true := by
      simp [List.all_cons] at h2
      exact h2.1
    unfold parseU16
    rw [hd, stripSign_of_digit ch rest hch]
    simp only [List.isEmpty_cons, Bool.false_eq_true, if_false, h2, if_true]
    rw [if_neg (by omega)]

/-- Claim C5 is contradicted by the code: a stack-move line with a missing
segment or index operand drives `StackToken::new` into `Option::unwrap`
on `None`, aborting the process (panic) instead of returning a
ParseError. -/
theorem parse_missing_operand_panics :
    Line.new "push" = .panicked
    ∧ Line.new "pop" = .panicked
    ∧ Line.new "push local" = .panicked
    ∧ stackFromTokens ["push"] = .panicked
    ∧ stackFromTokens ["pop", "local"] = .panicked := by
  decide

/-- Claim C6. A line carrying `pop constant n` fails with the InvalidPop error
(`"cannot pop constant"`) as the very first step of the Pop arm: the
generator returns its state untouched, and at the parser level no
assembly record is produced and the whole parser state (label counter,
slot counter, static map) is returned unchanged. -/
theorem pop_constant_rejected (p : Parser) (raw : String) (s : String) (n : Nat)
    (cg : CodeGen) (i : Nat)
    (hsplit : splitWs raw = ["pop", "constant", s])
    (hidx : parseU16 s = .ok n)
    (hcmt : String.mk (raw.data.take 2) ≠ "//") :
    cg.gen_stack_block (.Pop .constant i) = (.error "cannot pop constant", cg)
    ∧ p.process_line raw = (.err "cannot pop constant", p) := by
  have hne : raw ≠ "" := by
    intro he
    rw [he] at hsplit
    exact List.noConfusion hsplit
  have t1 : trimStr "pop" = "pop" := by decide
  have t2 : trimStr "constant" = "constant" := by decide
  refine ⟨rfl, ?_⟩
  simp [Parser.process_line, hcmt, hne, Line.new, hsplit, StackToken.new,
    stackFromTokens, t1, t2, Segment.new, hidx, CodeGen.gen_block,
    CodeGen.gen_stack_block]

/-- Witness for C6 at `pop constant 0`. -/
theorem pop_constant_rejected_witness :
    splitWs "pop constant 0" = ["pop", "constant", "0"]
    ∧ parseU16 "0" = .ok 0
    ∧ String.mk (("pop constant 0").data.take 2) ≠ "//"
    ∧ (CodeGen.new.gen_stack_block (.Pop .constant 0)
        = (.error "cannot pop constant", CodeGen.new)
      ∧ (Parser.new "f").process_line "pop constant 0"
        = (.err "cannot pop constant", Parser.new "f")) :=
  ⟨by decide, by decide, by decide,
    pop_constant_rejected (Parser.new "f") "pop constant 0" "0" 0 CodeGen.new 0
      (by decide) (by decide) (by decide)⟩

/-- Claim C8 (amended). A line that is exactly empty, or starts with `//` at
position 0, is a silent no-op (success, no record, state unchanged); but
a whitespace-only nonempty line is NOT skipped — it reaches the parser
and fails with `"token cannot be null"` — and malformed real instructions
fail with a parse error. -/
theorem blank_and_comment_skip (p : Parser) (raw : String) :
    (raw = "" → p.process_line raw = (.ok (), p))
    ∧ (String.mk (raw.data.take 2) = "//" → p.process_line raw = (.ok (), p))
    ∧ p.process_line " " = (.err "token cannot be null", p)
    ∧ p.process_line "banana" = (.err "unexpected token: banana", p) := by
  have c1 : String.mk ((" ").data.take 2) ≠ "//" := by decide
  have c2 : (" " : String) ≠ "" := by decide
  have c3 : Line.new " " = .err "token cannot be null" := by decide
  have c4 : String.mk (("banana").data.take 2) ≠ "//" := by decide
  have c5 : ("banana" : String) ≠ "" := by decide
  have c6 : Line.new "banana" = .err "unexpected token: banana" := by decide
  refine ⟨?_, ?_, ?_, ?_⟩
  · intro h
    subst h
    simp [Parser.process_line]
  · intro h
    simp [Parser.process_line, h]
  · simp [Parser.process_line, c1, c2, c3]
  · simp [Parser.process_line, c4, c5, c6]

/-- Witness for C8 on concrete skipped lines. -/
theorem blank_and_comment_skip_witness :
    ("" : String) = ""
    ∧ String.mk (("// x").data.take 2) = "//"
    ∧ (Parser.new "f").process_line "" = (.ok (), Parser.new "f")
    ∧ (Parser.new "f").process_line "// x" = (.ok (), Parser.new "f") :=
  ⟨rfl, by decide,
    (blank_and_comment_skip (Parser.new "f") "").1 rfl,
    (blank_and_comment_skip (Parser.new "f") "// x").2.1 (by decide)⟩

/-- C8 as literally stated is false for whitespace-only lines: processing
the one-space line is not a silent no-op, it fails. -/
theorem blank_and_comment_skip_cex :
    (Parser.new "f").process_line " " = (.err "token cannot be null", Parser.new "f")
    ∧ ((Parser.new "f").process_line " ").1 ≠ .ok () := by
  decide

/-- Claim C9. Tokens beyond the three used positions never influence a
stack-move parse, and the concrete line `push local 3 extra` parses to
the same instruction as `push local 3`. -/
theorem extra_tokens_ignored :
    (∀ (a b c : String) (rest : List String),
      stackFromTokens ([a, b, c] ++ rest) = stackFromTokens [a, b, c])
    ∧ Line.new "push local 3 extra" = Line.new "push local 3"
    ∧ Line.new "push local 3 extra" = .ok (.Stack (.Push .local_ 3)) := by
  exact ⟨fun a b c rest => rfl, by decide, by decide⟩

/-- Claim C10. A stack-move index literal above 65535 is rejected at parse
time even though it is a syntactically valid non-negative integer: the
u16 range check fails and parsing returns an error (and never a panic or
a wrapped value). -/
theorem index_bounded_at_parse (c sg s : String)
    (hc : c = "push" ∨ c = "pop")
    (hs1 : s.data ≠ [])
    (hs2 : s.data.all Char.isDigit = true)
    (hs3 : 65535 < digitsToNat s.data) :
    (∃ e, stackFromTokens [c, sg, s] = .err e)
    ∧ Line.new "push local 65536" = .err "number too large to fit in target type" := by
  refine ⟨?_, by decide⟩
  rcases hseg : Segment.new (trimStr sg) with e | seg
  · exact ⟨e, by simp [stackFromTokens, hseg]⟩
  · exact ⟨"number too large to fit in target type",
      by simp [stackFromTokens, hseg, parseU16_overflow s hs1 hs2 hs3]⟩

/-- Witness for C10 at `push local 65536`. -/
theorem index_bounded_at_parse_witness :
    (("push" : String) = "push" ∨ ("push" : String) = "pop")
    ∧ ("65536" : String).data ≠ []
    ∧ ("65536" : String).data.all Char.isDigit = true
    ∧ 65535 < digitsToNat ("65536" : String).data
    ∧ ((∃ e, stackFromTokens ["push", "local", "65536"] = .err e)
      ∧ Line.new "push local 65536" = .err "number too large to fit in target type") :=
  ⟨Or.inl rfl, by decide, by decide, by decide,
    index_bounded_at_parse "push" "local" "65536" (Or.inl rfl) (by decide) (by decide)
      (by decide)⟩

end N2T
